import Mathlib

/-!
Verification of the eopsin/opshin compiler slice: the constant-folding pass
(`src/opshin/optimize/optimize_const_folding.py`), the built-in catalog and
error wrappers (`src/eopsin/util.py`), and the keyword-argument rules
witnessed by `src/opshin/tests/test_keywords.py`.

Python source constructs are shallowly embedded as Lean definitions; the
sandboxed `exec`/`eval` outcome, which depends on the host interpreter, is
passed in as an explicit `Option` parameter where a visitor consumes it.
-/

namespace Eopsin

/-! ## Constant folder: the safe-globals table (optimize_const_folding.py) -/

/-- The names of the builtins in `SAFE_GLOBALS_LIST`
(optimize_const_folding.py, lines 28-90); `SAFE_GLOBALS` keys them by
`__name__`, which for a builtin is its usual name. -/
def SAFE_GLOBALS_LIST : List String :=
  ["abs", "all", "any", "ascii", "bin", "bool", "bytes", "bytearray",
   "callable", "chr", "classmethod", "compile", "complex", "delattr",
   "dict", "dir", "divmod", "enumerate", "filter", "float", "format",
   "frozenset", "getattr", "hasattr", "hash", "hex", "id", "input",
   "int", "isinstance", "issubclass", "iter", "len", "list", "map",
   "max", "min", "next", "object", "oct", "open", "ord", "pow",
   "print", "property", "range", "repr", "reversed", "round", "set",
   "setattr", "slice", "sorted", "staticmethod", "str", "sum", "super",
   "tuple", "type", "vars", "zip"]

/-- An entry of the globals dictionary handed to `exec`/`eval`: either the
real host builtin of that name, or the local `err` function raising
`ValueError("Was overwritten!")`. -/
inductive GlobalEntry where
  | builtin (name : String)
  | errFn
deriving DecidableEq, Repr

/-- `OptimizeConstantFolding.non_overwritten_globals`: every safe builtin is
kept under its name, except that a name shadowed by a visible source
variable is replaced by the raising `err` function. -/
def non_overwritten_globals (visibleVars : List String) :
    List (String × GlobalEntry) :=
  SAFE_GLOBALS_LIST.map (fun k =>
    (k, if visibleVars.contains k then GlobalEntry.errFn else GlobalEntry.builtin k))

/-- Association-list lookup, mirroring Python dictionary access. -/
def lookupA {α : Type} (k : String) : List (String × α) → Option α
  | [] => none
  | (k2, v) :: rest => if k2 = k then some v else lookupA k rest

/-! ## Constant folder: single-assignment counting (DefinedTimesVisitor) -/

/-- The statement shapes of the supported source subset that are relevant to
the write-counting visitor. Assignment targets are modelled as plain names
(`Name` nodes in `Store` context); other target shapes contribute no `Name`
store occurrence at this level. -/
inductive PyStmt where
  | assign (target : String)
  | annAssign (target : String)
  | ifStmt (body orelse : List PyStmt)
  | forStmt (target : String) (body : List PyStmt)
  | funcDef (name : String) (args : List String) (body : List PyStmt)
  | classDef (name : String) (body : List PyStmt)
  | exprStmt
deriving Repr

mutual
/-- The store-occurrences recorded by `DefinedTimesVisitor` for one
statement: `visit_If` and `visit_For` return immediately (the whole subtree
is skipped), `visit_Name` counts store contexts, `visit_ClassDef` counts
only the class name, `visit_FunctionDef` counts the name and then
generically visits the body (argument nodes are `arg` nodes, not `Name`
nodes, so they add nothing). -/
def definedTimesStmt : PyStmt → List String
  | .assign t => [t]
  | .annAssign t => [t]
  | .ifStmt _ _ => []
  | .forStmt _ _ => []
  | .funcDef n _ body => n :: definedTimesStmts body
  | .classDef n _ => [n]
  | .exprStmt => []

/-- `DefinedTimesVisitor` over a statement list (e.g. a module body). -/
def definedTimesStmts : List PyStmt → List String
  | [] => []
  | s :: rest => definedTimesStmt s ++ definedTimesStmts rest
end

/-- How often `DefinedTimesVisitor` counts a write of `x` in module `m`. -/
def definedTimes (m : List PyStmt) (x : String) : Nat :=
  (definedTimesStmts m).count x

/-- `visit_Module`: the single-assignment set is the set of names counted
exactly once (`self.constants = {c for c, i in constants.items() if i == 1}`). -/
def moduleConstants (m : List PyStmt) (x : String) : Bool :=
  definedTimes m x == 1

mutual
/-- All write occurrences in a statement, each tagged with whether the
occurrence lies inside a conditional branch or a loop body. This is the
specification-side notion used to compare with `DefinedTimesVisitor`
(class bodies contribute only the class name, matching the visitor's
reading of attribute names as non-writes of the enclosing scope). -/
def taggedWritesStmt (inBranch : Bool) : PyStmt → List (String × Bool)
  | .assign t => [(t, inBranch)]
  | .annAssign t => [(t, inBranch)]
  | .ifStmt body orelse =>
      taggedWritesStmts true body ++ taggedWritesStmts true orelse
  | .forStmt t body => (t, true) :: taggedWritesStmts true body
  | .funcDef n _ body => (n, inBranch) :: taggedWritesStmts inBranch body
  | .classDef n _ => [(n, inBranch)]
  | .exprStmt => []

/-- Tagged write occurrences of a statement list. -/
def taggedWritesStmts (inBranch : Bool) : List PyStmt → List (String × Bool)
  | [] => []
  | s :: rest => taggedWritesStmt inBranch s ++ taggedWritesStmts inBranch rest
end

/-- Drop the occurrences tagged as lying inside a branch or loop. -/
def untagOutside (l : List (String × Bool)) : List String :=
  l.filterMap (fun p => if p.2 then none else some p.1)

mutual
theorem taggedWritesStmt_inBranch (s : PyStmt) :
    ∀ p ∈ taggedWritesStmt true s, p.2 = true := by
  cases s with
  | assign t => intro p hp; simp [taggedWritesStmt] at hp; simp [hp]
  | annAssign t => intro p hp; simp [taggedWritesStmt] at hp; simp [hp]
  | ifStmt b e =>
      intro p hp
      simp only [taggedWritesStmt, List.mem_append] at hp
      rcases hp with h | h
      · exact taggedWritesStmts_inBranch b p h
      · exact taggedWritesStmts_inBranch e p h
  | forStmt t b =>
      intro p hp
      simp only [taggedWritesStmt, List.mem_cons] at hp
      rcases hp with h | h
      · simp [h]
      · exact taggedWritesStmts_inBranch b p h
  | funcDef n a b =>
      intro p hp
      simp only [taggedWritesStmt, List.mem_cons] at hp
      rcases hp with h | h
      · simp [h]
      · exact taggedWritesStmts_inBranch b p h
  | classDef n b => intro p hp; simp [taggedWritesStmt] at hp; simp [hp]
  | exprStmt => intro p hp; simp [taggedWritesStmt] at hp

theorem taggedWritesStmts_inBranch (l : List PyStmt) :
    ∀ p ∈ taggedWritesStmts true l, p.2 = true := by
  cases l with
  | nil => intro p hp; simp [taggedWritesStmts] at hp
  | cons s rest =>
      intro p hp
      simp only [taggedWritesStmts, List.mem_append] at hp
      rcases hp with h | h
      · exact taggedWritesStmt_inBranch s p h
      · exact taggedWritesStmts_inBranch rest p h
end

theorem untagOutside_of_inBranch (l : List (String × Bool))
    (h : ∀ p ∈ l, p.2 = true) : untagOutside l = [] := by
  induction l with
  | nil => rfl
  | cons p rest ih =>
      have hp := h p (by simp)
      simp only [untagOutside, List.filterMap_cons, hp, if_pos]
      exact ih (fun q hq => h q (by simp [hq]))

theorem untagOutside_append (l1 l2 : List (String × Bool)) :
    untagOutside (l1 ++ l2) = untagOutside l1 ++ untagOutside l2 := by
  simp [untagOutside]

mutual
theorem definedTimesStmt_eq_untag (s : PyStmt) :
    definedTimesStmt s = untagOutside (taggedWritesStmt false s) := by
  cases s with
  | assign t => simp [definedTimesStmt, taggedWritesStmt, untagOutside]
  | annAssign t => simp [definedTimesStmt, taggedWritesStmt, untagOutside]
  | ifStmt b e =>
      have hb := untagOutside_of_inBranch _ (taggedWritesStmts_inBranch b)
      have he := untagOutside_of_inBranch _ (taggedWritesStmts_inBranch e)
      simp [definedTimesStmt, taggedWritesStmt, untagOutside_append, hb, he]
  | forStmt t b =>
      have hb := untagOutside_of_inBranch _ (taggedWritesStmts_inBranch b)
      simp [definedTimesStmt, taggedWritesStmt, untagOutside, hb]
      simp [untagOutside] at hb
      simp [hb]
  | funcDef n a b =>
      have := definedTimesStmts_eq_untag b
      simp [definedTimesStmt, taggedWritesStmt, untagOutside, this]
  | classDef n b => simp [definedTimesStmt, taggedWritesStmt, untagOutside]
  | exprStmt => simp [definedTimesStmt, taggedWritesStmt, untagOutside]

theorem definedTimesStmts_eq_untag (l : List PyStmt) :
    definedTimesStmts l = untagOutside (taggedWritesStmts false l) := by
  cases l with
  | nil => rfl
  | cons s rest =>
      simp [definedTimesStmts, definedTimesStmt_eq_untag s,
        definedTimesStmts_eq_untag rest, taggedWritesStmts, untagOutside_append]
end

theorem count_untagOutside (l : List (String × Bool)) (x : String) :
    (untagOutside l).count x = l.count (x, false) := by
  induction l with
  | nil => rfl
  | cons p rest ih =>
      rcases p with ⟨n, b⟩
      cases b with
      | false =>
          have hcons : untagOutside ((n, false) :: rest) = n :: untagOutside rest := by
            simp [untagOutside]
          rw [hcons, List.count_cons, List.count_cons, ih]
          by_cases hx : n = x
          · subst hx; simp
          · simp [hx, Prod.ext_iff]
      | true =>
          have hcons : untagOutside ((n, true) :: rest) = untagOutside rest := by
            simp [untagOutside]
          rw [hcons, ih, List.count_cons]
          simp [Prod.ext_iff]

/-! ## Python values produced by the sandboxed evaluation -/

/-- The runtime values a sandboxed `eval`/`exec` can hand back to the
folder. `pyInt`, `pyStr`, `pyBytes`, `pyNone`, `pyBool` are the members of
`ACCEPTED_ATOMIC_TYPES`; `pyList`/`pyDict` are the container kinds the
folder additionally accepts; `pySet`, `pyTuple` and `pyFunc` are examples
of value kinds the folder does not accept. -/
inductive PyVal where
  | pyInt (n : Int)
  | pyStr (s : String)
  | pyBytes (bs : List Nat)
  | pyNone
  | pyBool (b : Bool)
  | pyList (items : List PyVal)
  | pyDict (entries : List (PyVal × PyVal))
  | pySet (items : List PyVal)
  | pyTuple (items : List PyVal)
  | pyFunc (name : String)
deriving Repr

/-- `any(isinstance(node_eval, t) for t in ACCEPTED_ATOMIC_TYPES)`:
the accepted atomic types are `int`, `str`, `bytes`, `NoneType`, `bool`. -/
def isAcceptedAtomic : PyVal → Bool
  | .pyInt _ => true
  | .pyStr _ => true
  | .pyBytes _ => true
  | .pyNone => true
  | .pyBool _ => true
  | _ => false

/-- The check actually performed by `OptimizeConstantFolding.generic_visit`:
`ACCEPTED_ATOMIC_TYPES + [list, dict]` — a list or dict is accepted
whatever its elements are. -/
def genericVisitAccepts (v : PyVal) : Bool :=
  isAcceptedAtomic v ||
    (match v with
     | .pyList _ => true
     | .pyDict _ => true
     | _ => false)

mutual
/-- The acceptance predicate in the specification's words: an accepted
atomic type, or a finite container (list/dict) of such values. -/
def specAccepts : PyVal → Bool
  | .pyList items => specAcceptsList items
  | .pyDict entries => specAcceptsEntries entries
  | v => isAcceptedAtomic v

/-- `specAccepts` on every element of a list. -/
def specAcceptsList : List PyVal → Bool
  | [] => true
  | v :: rest => specAccepts v && specAcceptsList rest

/-- `specAccepts` on every key and value of a dict. -/
def specAcceptsEntries : List (PyVal × PyVal) → Bool
  | [] => true
  | (k, v) :: rest => specAccepts k && specAccepts v && specAcceptsEntries rest
end

/-! ## Constant folder: expression folding (generic_visit) -/

/-- An expression node as the folder's `generic_visit` observes it after the
recursive `super().generic_visit(node)`: either already a `Constant`, or a
non-constant expression carrying its unparsed textual form. Both carry the
source span (`lineno`/`col_offset` as copied by `copy_location`). -/
inductive ExprNode where
  | constant (v : PyVal) (span : Nat × Nat)
  | other (source : String) (span : Nat × Nat)
deriving Repr

/-- Whether `pat` occurs at the start of `s`. -/
def charsHavePrefix : List Char → List Char → Bool
  | [], _ => true
  | _ :: _, [] => false
  | p :: ps, c :: cs => p == c && charsHavePrefix ps cs

/-- Whether `pat` occurs somewhere inside `s` (Python's `pat in s`). -/
def charsHaveInfix (pat : List Char) : List Char → Bool
  | [] => pat.isEmpty
  | c :: cs => charsHavePrefix pat (c :: cs) || charsHaveInfix pat cs

/-- Python's substring containment `pat in s`. -/
def strContains (s pat : String) : Bool :=
  charsHaveInfix pat.toList s.toList

/-- Whether `"print(" in node_source` (a plain substring test). -/
def containsPrintCall (source : String) : Bool :=
  strContains source "print("

/-- `OptimizeConstantFolding.generic_visit` on an expression node, with the
outcome of the sandboxed `eval` of its unparsed source passed in
(`none` when the evaluation raised). A `Constant` is returned untouched;
a node whose source contains `print(` is returned untouched; an evaluation
failure returns the node untouched; an accepted result value becomes a new
`Constant` carrying the value, with the original node's span copied by
`copy_location`. -/
def generic_visit (node : ExprNode) (evalOutcome : Option PyVal) : ExprNode :=
  match node with
  | .constant v sp => .constant v sp
  | .other source sp =>
    if containsPrintCall source then .other source sp
    else
      match evalOutcome with
      | none => .other source sp
      | some v =>
        if genericVisitAccepts v then .constant v sp
        else .other source sp

/-! ## Error wrapping (`CompilingNodeTransformer` / `CompilingNodeVisitor`) -/

/-- A Python exception as seen by the `visit` wrappers: either a structured
`CompilerError(orig_err, node, compilation_step)` or any other exception
(carried as a message). Nodes are identified by a numeric id. -/
inductive PyExc where
  | compilerError (origErr : String) (node : Nat) (compilationStep : String)
  | other (msg : String)
deriving DecidableEq, Repr

/-- `CompilingNodeTransformer.visit` (step "Node transformation"): run the
inner `super().visit`; re-raise a `CompilerError` unchanged, wrap any other
exception into `CompilerError(e, node, self.step)`. The inner visit's
outcome is passed in as an `Except`. -/
def CompilingNodeTransformer.visit {α : Type} (inner : Except PyExc α)
    (node : Nat) (step : String) : Except PyExc α :=
  match inner with
  | .ok a => .ok a
  | .error e =>
    match e with
    | .compilerError o n s => .error (.compilerError o n s)
    | .other msg => .error (.compilerError msg node step)

/-- `CompilingNodeVisitor.visit` (step "Node visiting"): identical wrapping
logic. -/
def CompilingNodeVisitor.visit {α : Type} (inner : Except PyExc α)
    (node : Nat) (step : String) : Except PyExc α :=
  match inner with
  | .ok a => .ok a
  | .error e =>
    match e with
    | .compilerError o n s => .error (.compilerError o n s)
    | .other msg => .error (.compilerError msg node step)

/-! ## Constant folder: statement visitors -/

/-- The constant mapping of the innermost folding scope
(`scopes_constants[-1]`). -/
structure FoldCtx where
  constants : List (String × PyVal)
deriving Repr

/-- `add_constant`. -/
def addConstant (ctx : FoldCtx) (var : String) (value : PyVal) : FoldCtx :=
  ⟨ctx.constants ++ [(var, value)]⟩

/-- An assignment target: a plain `Name` node or any other target shape. -/
inductive AssignTarget where
  | name (id : String)
  | nonName
deriving Repr

/-- `OptimizeConstantFolding.visit_Assign`. Statements with several targets
or a non-`Name` target are returned unchanged. For a single-assignment
target the statement is `exec`-ed in the sandbox; `evalOutcome` is the
resulting binding of the target (`none` when `exec` raised). The `exec`
is guarded by `try/except: pass`, so a failure leaves the context
unchanged and raises nothing; the node itself is always kept (value
subtree visiting is the separate `generic_visit` above). -/
def visit_Assign (targets : List AssignTarget) (singleAssignment : String → Bool)
    (evalOutcome : Option PyVal) (ctx : FoldCtx) : Except PyExc FoldCtx :=
  match targets with
  | [t] =>
    match t with
    | .name id =>
      if singleAssignment id then
        match evalOutcome with
        | some v => .ok (addConstant ctx id v)
        | none => .ok ctx
      else .ok ctx
    | .nonName => .ok ctx
  | _ => .ok ctx

/-- `OptimizeConstantFolding.visit_AnnAssign`. Same shape as `visit_Assign`
but the `exec` call is not wrapped in any `try/except`: when the sandboxed
evaluation fails, the exception propagates out of the visitor. -/
def visit_AnnAssign (target : AssignTarget) (singleAssignment : String → Bool)
    (evalOutcome : Option PyVal) (ctx : FoldCtx) : Except PyExc FoldCtx :=
  match target with
  | .name id =>
    if singleAssignment id then
      match evalOutcome with
      | some v => .ok (addConstant ctx id v)
      | none => .error (.other "exec failed in visit_AnnAssign")
    else .ok ctx
  | .nonName => .ok ctx

/-- `OptimizeConstantFolding.visit_FunctionDef`, restricted to its constant
pre-evaluation step: when the function's name is in the single-assignment
set, it is `exec`-ed in the sandbox with no `try/except` guard, so a
failure propagates; success binds the defined function object as a
constant. -/
def visit_FunctionDef_const (name : String) (singleAssignment : String → Bool)
    (evalOutcome : Option PyVal) (ctx : FoldCtx) : Except PyExc FoldCtx :=
  if singleAssignment name then
    match evalOutcome with
    | some v => .ok (addConstant ctx name v)
    | none => .error (.other "exec failed in visit_FunctionDef")
  else .ok ctx

/-- `OptimizeConstantFolding.visit_Import`. When every imported name is in
the single-assignment set, the import is `exec`-ed inside `try/except:
pass` and on success the new bindings extend the scope's constants. The
method never returns a node (Python implicitly returns `None`), so the
transformer removes the import statement in every case; the second
component is the replacement node, always `none`. -/
def visit_Import (allNamesConstant : Bool)
    (evalOutcome : Option (List (String × PyVal))) (ctx : FoldCtx) :
    Except PyExc (FoldCtx × Option Unit) :=
  if allNamesConstant then
    match evalOutcome with
    | some newBindings => .ok (⟨ctx.constants ++ newBindings⟩, none)
    | none => .ok (ctx, none)
  else .ok (ctx, none)

/-! ## Call-argument matching (modelled from the spec) -/

/-- An argument at a call site: positional, or keyword. Payloads are
expression ids. -/
inductive CallArg where
  | positional (val : Nat)
  | keyword (name : String) (val : Nat)
deriving DecidableEq, Repr

/-- Whether an argument is positional. -/
def isPositionalArg : CallArg → Bool
  | .positional _ => true
  | .keyword _ _ => false

/-- Whether some positional argument appears after a keyword argument. -/
def hasPositionalAfterKeyword : List CallArg → Bool
  | [] => false
  | .positional _ :: rest => hasPositionalAfterKeyword rest
  | .keyword _ _ :: rest => rest.any isPositionalArg || hasPositionalAfterKeyword rest

/-- The ways argument matching can fail. -/
inductive ArgErr where
  | positionalAfterKeyword
  | tooManyArguments
  | duplicateParameter
  | unknownKeyword
  | missingParameter
deriving DecidableEq, Repr

/-- Modelled from the spec: the argument-to-parameter matching loop of the
inference pass (not under `src/`; spec 4.2: positional arguments fill
parameters left to right, any parameter may be supplied by keyword, after
the first keyword argument no positional argument may appear, duplicate
assignment and unknown keywords are rejected, unassigned parameters are
rejected as missing). -/
def matchArgsGo (params : List String) (assigned : List (String × Nat))
    (posIdx : Nat) (seenKeyword : Bool) :
    List CallArg → Except ArgErr (List (String × Nat))
  | [] =>
    if params.all (fun p => assigned.any (fun a => a.1 == p)) then .ok assigned
    else .error .missingParameter
  | .positional v :: rest =>
    if seenKeyword then .error .positionalAfterKeyword
    else
      match params.get? posIdx with
      | none => .error .tooManyArguments
      | some p =>
        if assigned.any (fun a => a.1 == p) then .error .duplicateParameter
        else matchArgsGo params ((p, v) :: assigned) (posIdx + 1) seenKeyword rest
  | .keyword k v :: rest =>
    if params.contains k then
      if assigned.any (fun a => a.1 == k) then .error .duplicateParameter
      else matchArgsGo params ((k, v) :: assigned) posIdx true rest
    else .error .unknownKeyword

/-- Modelled from the spec: match a call's arguments against a parameter
list. -/
def matchArgs (params : List String) (args : List CallArg) :
    Except ArgErr (List (String × Nat)) :=
  matchArgsGo params [] 0 false args

/-- Modelled from the spec: compiling a call emits an IR application only
when argument matching succeeds; a matching error is a compile-time
rejection and no IR term is produced. -/
def compileCall (params : List String) (args : List CallArg) :
    Except ArgErr (List (String × Nat)) :=
  matchArgs params args

/-! ## The pluthon IR fragment used by the built-in catalog (util.py) -/

/-- The pluthon IR constructors the built-in catalog uses. `lam` is
`plt.Lambda` (multi-parameter, curried on application), `foldList` is
`plt.FoldList` (a left fold whose callback takes the accumulator first and
the element second), `builtinAddInteger` is
`plt.BuiltIn(uplc.BuiltInFun.AddInteger)`. -/
inductive PltAST where
  | lam (params : List String) (body : PltAST)
  | varE (name : String)
  | app (f : PltAST) (arg : PltAST)
  | integer (n : Int)
  | boolConst (b : Bool)
  | iteE (c t e : PltAST)
  | lessThanInteger (a b : PltAST)
  | subtractInteger (a b : PltAST)
  | addInteger (a b : PltAST)
  | lengthOfByteString (x : PltAST)
  | traceE (msg x : PltAST)
  | noneData
  | rangeE (limit : PltAST)
  | foldList (l f i : PltAST)
  | builtinAddInteger
deriving Repr

/-- pluthon's `And(x, y)` sugar: `Ite(x, y, Bool(False))`. -/
def pAnd (x y : PltAST) : PltAST := .iteE x y (.boolConst false)

/-- pluthon's `Or(x, y)` sugar: `Ite(x, Bool(True), y)`. -/
def pOr (x y : PltAST) : PltAST := .iteE x (.boolConst true) y

/-- Values of the IR evaluator. `vUnit` is the unit/`NoneData` result;
`vAddIntFun`/`vAddIntPartial` are the `AddInteger` builtin and its partial
application. -/
inductive Val where
  | vInt (n : Int)
  | vBool (b : Bool)
  | vBytes (bs : List Nat)
  | vStr (s : String)
  | vUnit
  | vList (items : List Val)
  | vClos (params : List String) (body : PltAST) (env : List (String × Val))
  | vAddIntFun
  | vAddIntPartial (n : Int)
deriving Repr

/-- Environment lookup for the IR evaluator. -/
def envLookup (x : String) : List (String × Val) → Option Val
  | [] => none
  | (y, v) :: rest => if y = x then some v else envLookup x rest

/-- Apply an IR function value to one argument. A multi-parameter closure
binds its first parameter and, with parameters remaining, stays a closure;
the last binding evaluates the body through `recur` (the evaluator at the
enclosing fuel). -/
def applyVal (recur : List (String × Val) → PltAST → Option Val)
    (vf va : Val) : Option Val :=
  match vf with
  | .vClos [p] body cenv => recur ((p, va) :: cenv) body
  | .vClos (p :: q :: ps) body cenv => some (.vClos (q :: ps) body ((p, va) :: cenv))
  | .vAddIntFun => match va with | .vInt n => some (.vAddIntPartial n) | _ => none
  | .vAddIntPartial n => match va with | .vInt m => some (.vInt (n + m)) | _ => none
  | _ => none

/-- The left-fold loop of `plt.FoldList`: the accumulator is threaded left
to right and the callback is applied as `f acc element`. -/
def foldListRun (recur : List (String × Val) → PltAST → Option Val)
    (vf : Val) : Val → List Val → Option Val
  | acc, [] => some acc
  | acc, x :: xs =>
    match applyVal recur vf acc with
    | none => none
    | some g =>
      match applyVal recur g x with
      | none => none
      | some acc2 => foldListRun recur vf acc2 xs

/-- A fuel-indexed big-step evaluator for the pluthon IR fragment. Fuel is
spent on each nesting level, so a fixed fuel evaluates list folds of any
length (the fold loop itself is structural on the list). -/
def evalPlt : Nat → List (String × Val) → PltAST → Option Val
  | 0, _, _ => none
  | fuel + 1, env, e =>
    match e with
    | .lam ps body => some (.vClos ps body env)
    | .varE x => envLookup x env
    | .app f a =>
      match evalPlt fuel env f, evalPlt fuel env a with
      | some vf, some va => applyVal (evalPlt fuel) vf va
      | _, _ => none
    | .integer n => some (.vInt n)
    | .boolConst b => some (.vBool b)
    | .iteE c t e2 =>
      match evalPlt fuel env c with
      | some (.vBool true) => evalPlt fuel env t
      | some (.vBool false) => evalPlt fuel env e2
      | _ => none
    | .lessThanInteger a b =>
      match evalPlt fuel env a, evalPlt fuel env b with
      | some (.vInt x), some (.vInt y) => some (.vBool (decide (x < y)))
      | _, _ => none
    | .subtractInteger a b =>
      match evalPlt fuel env a, evalPlt fuel env b with
      | some (.vInt x), some (.vInt y) => some (.vInt (x - y))
      | _, _ => none
    | .addInteger a b =>
      match evalPlt fuel env a, evalPlt fuel env b with
      | some (.vInt x), some (.vInt y) => some (.vInt (x + y))
      | _, _ => none
    | .lengthOfByteString x =>
      match evalPlt fuel env x with
      | some (.vBytes bs) => some (.vInt bs.length)
      | _ => none
    | .traceE msg x =>
      match evalPlt fuel env msg with
      | some (.vStr _) => evalPlt fuel env x
      | _ => none
    | .noneData => some .vUnit
    | .rangeE limit =>
      match evalPlt fuel env limit with
      | some (.vInt n) =>
        some (.vList ((List.range n.toNat).map (fun i => .vInt (Int.ofNat i))))
      | _ => none
    | .foldList l f i =>
      match evalPlt fuel env l, evalPlt fuel env f, evalPlt fuel env i with
      | some (.vList xs), some vf, some vi => foldListRun (evalPlt fuel) vf vi xs
      | _, _, _ => none
    | .builtinAddInteger => some .vAddIntFun

/-- Apply a closed IR term to two argument values (an eopsin built-in
lambda takes its argument and the trailing `_` context parameter). -/
def applyIR2 (fuel : Nat) (t : PltAST) (a b : Val) : Option Val :=
  match evalPlt fuel [] t with
  | none => none
  | some f =>
    match applyVal (evalPlt fuel) f a with
    | none => none
    | some g => applyVal (evalPlt fuel) g b

/-! ## The built-in catalog (util.py) -/

/-- The members of the `PythonBuiltIn` enum. -/
inductive PythonBuiltIn where
  | all
  | any
  | abs
  | breakpoint
  | len
  | print
  | range
  | sum
deriving DecidableEq, Repr

/-- The IR lambda each `PythonBuiltIn` member carries as its enum value,
translated from util.py lines 11-51. `len` is declared with `auto()` (a
sentinel, no direct lambda), hence `none`. -/
def PythonBuiltIn.impl : PythonBuiltIn → Option PltAST
  | .all => some (.lam ["xs", "_"]
      (.foldList (.varE "xs")
        (.lam ["x", "a"] (pAnd (.varE "x") (.varE "a")))
        (.integer 0)))
  | .any => some (.lam ["xs", "_"]
      (.foldList (.varE "xs")
        (.lam ["x", "a"] (pOr (.varE "x") (.varE "a")))
        (.integer 0)))
  | .abs => some (.lam ["x", "_"]
      (.iteE (.lessThanInteger (.varE "x") (.integer 0))
        (.subtractInteger (.integer 0) (.varE "x"))
        (.varE "x")))
  | .breakpoint => some (.lam ["_"] .noneData)
  | .len => none
  | .print => some (.lam ["x", "_"] (.traceE (.varE "x") .noneData))
  | .range => some (.lam ["limit", "_"] (.rangeE (.varE "limit")))
  | .sum => some (.lam ["xs", "_"]
      (.foldList (.varE "xs") .builtinAddInteger (.integer 0)))

/-- Evaluate the registered `all` lambda on a list of Booleans (plus the
trailing unit context argument), as the compiled program would. -/
def runBuiltinAll (xs : List Bool) : Option Val :=
  match PythonBuiltIn.impl .all with
  | some t => applyIR2 10 t (.vList (xs.map .vBool)) .vUnit
  | none => none

/-! ## The type model and the polymorphic `len` (util.py / typed_ast) -/

/-- Modelled from the spec: the type language of section 3 (the defining
module `eopsin/typed_ast.py` is not under `src/`; only the constructors
`Len` and `PythonBuiltInTypes` use are included). `instanceType`
distinguishes a value of a type from the class itself; equality is
structural. -/
inductive Typ where
  | integerT
  | byteStringT
  | stringT
  | boolT
  | unitT
  | listT (elem : Typ)
  | instanceT (typ : Typ)
  | functionT (args : List Typ) (ret : Typ)
deriving Repr

mutual
/-- Structural type equality (the spec: two types compare equal iff
structurally equal). -/
def beqTyp : Typ → Typ → Bool
  | .integerT, .integerT => true
  | .byteStringT, .byteStringT => true
  | .stringT, .stringT => true
  | .boolT, .boolT => true
  | .unitT, .unitT => true
  | .listT a, .listT b => beqTyp a b
  | .instanceT a, .instanceT b => beqTyp a b
  | .functionT as1 r1, .functionT as2 r2 => beqTypList as1 as2 && beqTyp r1 r2
  | _, _ => false

/-- Structural equality of type lists. -/
def beqTypList : List Typ → List Typ → Bool
  | [], [] => true
  | a :: as1, b :: bs => beqTyp a b && beqTypList as1 bs
  | _, _ => false
end

/-- `IntegerInstanceType`. -/
def IntegerInstanceType : Typ := .instanceT .integerT

/-- `ByteStringInstanceType`. -/
def ByteStringInstanceType : Typ := .instanceT .byteStringT

/-- `BoolInstanceType`. -/
def BoolInstanceType : Typ := .instanceT .boolT

/-- An `AssertionError`/`NotImplementedError`/`IndexError` surfaced by the
`Len` specialization methods, carried as a message. -/
inductive SpecErr where
  | assertionError (msg : String)
  | notImplementedError (msg : String)
  | indexError
deriving DecidableEq, Repr

/-- `Len.type_from_args`: assert exactly one argument, assert it is an
instance type, and return `FunctionType(args, IntegerInstanceType)`. -/
def Len.type_from_args (args : List Typ) : Except SpecErr Typ :=
  match args with
  | [a] =>
    match a with
    | .instanceT _ => .ok (.functionT args IntegerInstanceType)
    | _ => .error (.assertionError "Can only determine length of instances")
  | _ => .error (.assertionError "len takes only one argument")

/-- The monomorphic IR lambda for `len` on byte strings. -/
def lenByteStringImpl : PltAST :=
  .lam ["x", "_"] (.lengthOfByteString (.varE "x"))

/-- The monomorphic IR lambda for `len` on lists: a fold adding one per
element starting from zero. -/
def lenListImpl : PltAST :=
  .lam ["x", "_"]
    (.foldList (.varE "x")
      (.lam ["a", "_"] (.addInteger (.varE "a") (.integer 1)))
      (.integer 0))

/-- `Len.impl_from_args`: read `args[0]` (an `IndexError` when empty),
assert it is an instance type, return the byte-string length primitive for
`ByteStringInstanceType`, the counting fold for a list instance type, and
raise `NotImplementedError` for every other instance type. -/
def Len.impl_from_args (args : List Typ) : Except SpecErr PltAST :=
  match args.head? with
  | none => .error .indexError
  | some arg =>
    match arg with
    | .instanceT t =>
      if beqTyp (.instanceT t) ByteStringInstanceType then .ok lenByteStringImpl
      else
        match t with
        | .listT _ => .ok lenListImpl
        | _ => .error (.notImplementedError "len is not implemented for this type")
    | _ => .error (.assertionError "Can only determine length of instances")

/-- Evaluate the byte-string `len` specialization on a byte string. -/
def runLenByteString (bs : List Nat) : Option Val :=
  applyIR2 10 lenByteStringImpl (.vBytes bs) .vUnit

/-- Evaluate the list `len` specialization on a list of values. -/
def runLenList (vs : List Val) : Option Val :=
  applyIR2 10 lenListImpl (.vList vs) .vUnit

/-! ## data_from_json (util.py, lines 154-165) -/

/-- A parsed JSON value, as the Python function receives it. -/
inductive Json where
  | jnull
  | jbool (b : Bool)
  | jint (n : Int)
  | jstr (s : String)
  | jarr (items : List Json)
  | jobj (fields : List (String × Json))
deriving Repr

/-- The exceptions `data_from_json` and its payload conversions can raise. -/
inductive DataErr where
  | notImplemented
  | typeError
  | keyError
  | valueError
deriving DecidableEq, Repr

/-- A hashable Python dictionary key in canonical form (`True` hashes and
compares equal to `1`); `none` from `jsonKey?` means the key is unhashable
(a list or dict). -/
inductive PyKey where
  | kInt (n : Int)
  | kStr (s : String)
  | kNull
deriving DecidableEq, Repr

/-- Canonicalize a JSON value used as a dictionary key. -/
def jsonKey? : Json → Option PyKey
  | .jint n => some (.kInt n)
  | .jbool b => some (.kInt (if b then 1 else 0))
  | .jstr s => some (.kStr s)
  | .jnull => some .kNull
  | _ => none

/-- The `uplc.PlutusData` results. The map and constructor variants carry
raw JSON payloads because `data_from_json` passes `d["k"]`, `d["v"]`,
`j["constructor"]` and `j["fields"]` through without conversion; a map
entry is (canonical key, first-inserted key object, latest value). -/
inductive PlutusData where
  | plutusByteString (bs : List Nat)
  | plutusInteger (n : Int)
  | plutusList (items : List PlutusData)
  | plutusMap (entries : List (PyKey × Json × Json))
  | plutusConstr (tag : Json) (fields : Json)
deriving Repr

/-- Value of a hexadecimal digit. -/
def hexDigitVal (c : Char) : Option Nat :=
  if '0' ≤ c ∧ c ≤ '9' then some (c.toNat - '0'.toNat)
  else if 'a' ≤ c ∧ c ≤ 'f' then some (c.toNat - 'a'.toNat + 10)
  else if 'A' ≤ c ∧ c ≤ 'F' then some (c.toNat - 'A'.toNat + 10)
  else none

/-- Decode an even run of hexadecimal digits into bytes. -/
def hexPairsDecode : List Char → Option (List Nat)
  | [] => some []
  | [_] => none
  | c1 :: c2 :: rest =>
    match hexDigitVal c1, hexDigitVal c2, hexPairsDecode rest with
    | some hi, some lo, some bs => some ((hi * 16 + lo) :: bs)
    | _, _, _ => none

/-- `bytes.fromhex`: hexadecimal digit pairs, spaces tolerated. -/
def bytesFromHex (s : String) : Option (List Nat) :=
  hexPairsDecode (s.toList.filter (fun c => c ≠ ' '))

/-- `uplc.PlutusByteString(bytes.fromhex(j["bytes"]))`: the payload must be
a string (`TypeError` otherwise) of valid hex (`ValueError` otherwise). -/
def decodeBytes : Json → Except DataErr PlutusData
  | .jstr s =>
    match bytesFromHex s with
    | some bs => .ok (.plutusByteString bs)
    | none => .error .valueError
  | _ => .error .typeError

/-- Python's `int(x)` on a decimal string: optional surrounding blanks and
an optional sign. -/
def pyParseInt (s : String) : Option Int :=
  let t := s.trim
  let t2 := if t.startsWith "+" then t.drop 1 else t
  t2.toInt?

/-- `uplc.PlutusInteger(int(j["int"]))`: `int()` accepts integers, booleans
and numeric strings and raises `TypeError`/`ValueError` otherwise. -/
def decodeInt : Json → Except DataErr PlutusData
  | .jint n => .ok (.plutusInteger n)
  | .jbool b => .ok (.plutusInteger (if b then 1 else 0))
  | .jstr s =>
    match pyParseInt s with
    | some n => .ok (.plutusInteger n)
    | none => .error .valueError
  | _ => .error .typeError

/-- Insert into a Python dictionary: an existing key keeps its position and
first key object but takes the new value; a new key is appended. -/
def pyDictInsert : List (PyKey × Json × Json) → PyKey → Json → Json →
    List (PyKey × Json × Json)
  | [], ck, kj, v => [(ck, kj, v)]
  | (ck2, kj2, v2) :: rest, ck, kj, v =>
    if ck2 = ck then (ck2, kj2, v) :: rest
    else (ck2, kj2, v2) :: pyDictInsert rest ck kj v

/-- The comprehension `{d["k"]: d["v"] for d in j["map"]}` over the
payload's elements: every element must be a dictionary providing `k` and
`v` (`KeyError` otherwise, `TypeError` for non-dictionaries and
unhashable keys). -/
def decodeMapEntries (acc : List (PyKey × Json × Json)) :
    List Json → Except DataErr (List (PyKey × Json × Json))
  | [] => .ok acc
  | d :: rest =>
    match d with
    | .jobj dfs =>
      match lookupA "k" dfs with
      | none => .error .keyError
      | some kj =>
        match lookupA "v" dfs with
        | none => .error .keyError
        | some vj =>
          match jsonKey? kj with
          | none => .error .typeError
          | some ck => decodeMapEntries (pyDictInsert acc ck kj vj) rest
    | _ => .error .typeError

/-- The `map` branch: iterating a list builds the dictionary; iterating a
string or dictionary hands each character/key (a string) to the
comprehension body, where subscripting it raises `TypeError`; other
payloads are not iterable. -/
def decodeMap : Json → Except DataErr PlutusData
  | .jarr ds =>
    match decodeMapEntries [] ds with
    | .ok entries => .ok (.plutusMap entries)
    | .error e => .error e
  | .jstr s => if s.isEmpty then .ok (.plutusMap []) else .error .typeError
  | .jobj kfs =>
    match kfs with
    | [] => .ok (.plutusMap [])
    | _ :: _ => .error .typeError
  | _ => .error .typeError

/-- `data_from_json` applied to a string `s`: each membership test
`"bytes" in s` is a substring test, and on a hit the subscript
`s["bytes"]` raises `TypeError` (string indices must be integers); with no
hit the final `NotImplementedError` is reached. Strings therefore never
decode successfully, and the function never recurses on them. -/
def dataFromJsonStr (s : String) : Except DataErr PlutusData :=
  if strContains s "bytes" then .error .typeError
  else if strContains s "int" then .error .typeError
  else if strContains s "list" then .error .typeError
  else if strContains s "map" then .error .typeError
  else if strContains s "constructor" && strContains s "fields" then .error .typeError
  else .error .notImplemented

/-- Python string equality of a JSON value against a string constant
(`"bytes" == element`): false for every non-string. -/
def jsonEqStr (j : Json) (s : String) : Bool :=
  match j with
  | .jstr t => t == s
  | _ => false

/-- `data_from_json` applied to a list: each membership test is list
membership, and on a hit the string subscript raises `TypeError`; with no
hit the final `NotImplementedError` is reached. -/
def dataFromJsonArr (items : List Json) : Except DataErr PlutusData :=
  if items.any (fun j => jsonEqStr j "bytes") then .error .typeError
  else if items.any (fun j => jsonEqStr j "int") then .error .typeError
  else if items.any (fun j => jsonEqStr j "list") then .error .typeError
  else if items.any (fun j => jsonEqStr j "map") then .error .typeError
  else if items.any (fun j => jsonEqStr j "constructor") &&
      items.any (fun j => jsonEqStr j "fields") then .error .typeError
  else .error .notImplemented

theorem lookupA_sizeOf {α : Type} [SizeOf α] (k : String)
    (l : List (String × α)) (v : α) (h : lookupA k l = some v) :
    sizeOf v < sizeOf l := by
  induction l with
  | nil => simp [lookupA] at h
  | cons p rest ih =>
      rcases p with ⟨k2, w⟩
      by_cases hk : k2 = k
      · simp [lookupA, hk] at h
        subst h
        simp only [List.cons.sizeOf_spec, Prod.mk.sizeOf_spec]
        omega
      · simp [lookupA, hk] at h
        have := ih h
        simp only [List.cons.sizeOf_spec, Prod.mk.sizeOf_spec]
        omega

mutual
/-- `data_from_json` (util.py): the recognized keys are tested in the
order `bytes`, `int`, `list`, `map`, then `constructor` together with
`fields`; the `list` branch converts each element recursively
(`list(map(data_from_json, j["list"]))`); non-dictionary payloads of
`j["list"]` behave as Python iteration does (characters of a string, keys
of a dictionary, `TypeError` for non-iterables); when nothing matches,
`NotImplementedError` is raised. -/
def data_from_json : Json → Except DataErr PlutusData
  | .jobj fields =>
    match lookupA "bytes" fields with
    | some v => decodeBytes v
    | none =>
      match lookupA "int" fields with
      | some v => decodeInt v
      | none =>
        match hl : lookupA "list" fields with
        | some (.jarr items) =>
          match data_from_json_list items with
          | .ok ds => .ok (.plutusList ds)
          | .error e => .error e
        | some (.jstr s) =>
          if s.isEmpty then .ok (.plutusList []) else .error .notImplemented
        | some (.jobj kfs) =>
          match kfs with
          | [] => .ok (.plutusList [])
          | (k, _) :: _ => dataFromJsonStr k
        | some _ => .error .typeError
        | none =>
          match lookupA "map" fields with
          | some v => decodeMap v
          | none =>
            match lookupA "constructor" fields, lookupA "fields" fields with
            | some c, some f => .ok (.plutusConstr c f)
            | _, _ => .error .notImplemented
  | .jstr s => dataFromJsonStr s
  | .jarr items => dataFromJsonArr items
  | _ => .error .typeError
termination_by j => sizeOf j
decreasing_by
  have h := lookupA_sizeOf "list" fields (Json.jarr items) hl
  simp_wf
  simp only [Json.jarr.sizeOf_spec] at h
  omega

/-- `list(map(data_from_json, items))`: recursive conversion, first raise
propagates. -/
def data_from_json_list : List Json → Except DataErr (List PlutusData)
  | [] => .ok []
  | x :: xs =>
    match data_from_json x with
    | .error e => .error e
    | .ok d =>
      match data_from_json_list xs with
      | .error e => .error e
      | .ok ds => .ok (d :: ds)
termination_by l => sizeOf l
decreasing_by
  all_goals simp_wf
  all_goals omega
end

/-! ## Helper lemmas -/

theorem matchArgsGo_fails (args : List CallArg) :
    ∀ (params : List String) (assigned : List (String × Nat)) (posIdx : Nat)
      (seenKw : Bool),
      ((seenKw && args.any isPositionalArg) || hasPositionalAfterKeyword args) = true →
      (matchArgsGo params assigned posIdx seenKw args).isOk = false := by
  induction args with
  | nil =>
      intro params assigned posIdx seenKw h
      simp [hasPositionalAfterKeyword] at h
  | cons a rest ih =>
      intro params assigned posIdx seenKw h
      cases a with
      | positional v =>
          cases seenKw with
          | true => rfl
          | false =>
              have hrest : ((false && rest.any isPositionalArg) ||
                  hasPositionalAfterKeyword rest) = true := by
                simpa [hasPositionalAfterKeyword] using h
              have hred : matchArgsGo params assigned posIdx false
                  (.positional v :: rest) =
                  match params.get? posIdx with
                  | none => Except.error ArgErr.tooManyArguments
                  | some p =>
                    if assigned.any (fun a => a.1 == p) then
                      Except.error ArgErr.duplicateParameter
                    else matchArgsGo params ((p, v) :: assigned) (posIdx + 1)
                      false rest := rfl
              rw [hred]
              cases params.get? posIdx with
              | none => rfl
              | some p =>
                  show (if (assigned.any fun a => a.1 == p) = true then
                      Except.error ArgErr.duplicateParameter
                    else matchArgsGo params ((p, v) :: assigned) (posIdx + 1)
                      false rest).isOk = false
                  by_cases hdup : (assigned.any fun a => a.1 == p) = true
                  · rw [if_pos hdup]; rfl
                  · rw [if_neg hdup]
                    exact ih params ((p, v) :: assigned) (posIdx + 1) false hrest
      | keyword k v =>
          have hrest : ((true && rest.any isPositionalArg) ||
              hasPositionalAfterKeyword rest) = true := by
            simp only [hasPositionalAfterKeyword, List.any_cons, isPositionalArg,
              Bool.false_or, Bool.true_and] at h ⊢
            cases hb : rest.any isPositionalArg with
            | true => simp
            | false =>
                rw [hb] at h
                simpa using h
          have hred : matchArgsGo params assigned posIdx seenKw
              (.keyword k v :: rest) =
              (if params.contains k then
                if assigned.any (fun a => a.1 == k) then
                  Except.error ArgErr.duplicateParameter
                else matchArgsGo params ((k, v) :: assigned) posIdx true rest
              else Except.error ArgErr.unknownKeyword) := rfl
          rw [hred]
          by_cases hk : (params.contains k) = true
          · rw [if_pos hk]
            by_cases hdup : (assigned.any fun a => a.1 == k) = true
            · rw [if_pos hdup]; rfl
            · rw [if_neg hdup]
              exact ih params ((k, v) :: assigned) posIdx true hrest
          · rw [if_neg hk]; rfl

theorem lenListFoldRun (env : List (String × Val)) (vs : List Val) :
    ∀ k : Int,
      foldListRun (evalPlt 9)
        (.vClos ["a", "_"] (.addInteger (.varE "a") (.integer 1)) env)
        (.vInt k) vs = some (.vInt (k + vs.length)) := by
  induction vs with
  | nil => intro k; simp [foldListRun]
  | cons x rest ih =>
      intro k
      have h1 : foldListRun (evalPlt 9)
          (Val.vClos ["a", "_"] (.addInteger (.varE "a") (.integer 1)) env)
          (.vInt k) (x :: rest) =
          foldListRun (evalPlt 9)
            (Val.vClos ["a", "_"] (.addInteger (.varE "a") (.integer 1)) env)
            (.vInt (k + 1)) rest := rfl
      rw [h1, ih (k + 1)]
      have h2 : k + 1 + (rest.length : Int) = k + ((x :: rest).length : Int) := by
        simp [List.length_cons]
        ring
      rw [h2]

/-! ## Claims -/

/-- C1: the claim states that the safe built-in table handed to folded code
contains no function able to perform file system, network, or process
interactions, and in particular that `open` and `input` are not exposed.
The code refutes this: `SAFE_GLOBALS_LIST` contains `open` (file system
access) and `input` (process standard-input interaction), and
`non_overwritten_globals` hands both through unchanged whenever no source
variable shadows them. -/
theorem C1_safe_globals_expose_open_and_input :
    SAFE_GLOBALS_LIST.contains "open" = true ∧
    SAFE_GLOBALS_LIST.contains "input" = true ∧
    lookupA "open" (non_overwritten_globals []) = some (.builtin "open") ∧
    lookupA "input" (non_overwritten_globals []) = some (.builtin "input") := by
  refine ⟨by decide, by decide, by rfl, by rfl⟩

/-- C2 counterexample: in the module `x = 1; if c: x = 2`, the name `x` has
a write inside a conditional branch, yet the fold pass's single-assignment
set contains `x` (the visitor skips `If` subtrees, so the count is 1),
contradicting the claim that such names are always excluded. -/
theorem C2_counterexample :
    moduleConstants [.assign "x", .ifStmt [.assign "x"] []] "x" = true ∧
    (taggedWritesStmts false [.assign "x", .ifStmt [.assign "x"] []]).contains
      ("x", true) = true := by
  constructor
  · simp [moduleConstants, definedTimes, definedTimesStmts, definedTimesStmt]
  · simp [taggedWritesStmts, taggedWritesStmt]

/-- C2 amended: the single-assignment set contains exactly the names with
exactly one write occurrence outside every conditional branch and loop
body; writes inside conditionals and loops are not counted at all, so a
name assigned once at top level is treated as constant even when it is
also written inside a branch or loop. -/
theorem C2_single_assignment_counts_outside_writes (m : List PyStmt) (x : String) :
    moduleConstants m x = true ↔
      (taggedWritesStmts false m).count (x, false) = 1 := by
  unfold moduleConstants definedTimes
  rw [definedTimesStmts_eq_untag, count_untagOutside]
  simp

/-- C3: the claim states that every sandboxed pre-evaluation failure is
silently recovered. The code guards only `visit_Assign` and `visit_Import`
with `try/except: pass`; in `visit_AnnAssign` and `visit_FunctionDef` the
`exec` call is unguarded, so a failing evaluation of a single-assignment
annotated assignment or function definition escapes the visitor (and
aborts compilation as a wrapped CompilerError) instead of leaving the
statement unfolded. -/
theorem C3_folding_eval_failure_handling (ctx : FoldCtx) :
    visit_Assign [.name "x"] (fun _ => true) none ctx = .ok ctx ∧
    visit_Import true none ctx = .ok (ctx, none) ∧
    visit_AnnAssign (.name "x") (fun _ => true) none ctx =
      .error (.other "exec failed in visit_AnnAssign") ∧
    visit_FunctionDef_const "f" (fun _ => true) none ctx =
      .error (.other "exec failed in visit_FunctionDef") :=
  ⟨rfl, rfl, rfl, rfl⟩

/-- C4: the claim states that the IR lambda registered for `all` yields
true iff every list element is true, and true on the empty list. The code
refutes this: the fold's initial accumulator is `Integer(0)`, so on the
empty list the result is the integer 0 (not the Boolean true), and on any
non-empty list the accumulator 0 reaches `And` — an `Ite` on a non-Boolean
— and evaluation fails; the lambda never produces true. -/
theorem C4_all_builtin_never_true (xs : List Bool) :
    runBuiltinAll xs = if xs.isEmpty then some (.vInt 0) else none := by
  cases xs with
  | nil => rfl
  | cons x rest => rfl

/-- C5 counterexample: the claim restricts replacement to accepted atomic
values and finite containers of such values, but the code accepts any
`list` or `dict` without inspecting elements: the expression `[{1}]`
evaluates to a list containing a set — not a container of accepted
values — and is nevertheless replaced by a constant. -/
theorem C5_counterexample :
    generic_visit (.other "[{1}]" (1, 0)) (some (.pyList [.pySet [.pyInt 1]])) =
      .constant (.pyList [.pySet [.pyInt 1]]) (1, 0) ∧
    specAccepts (.pyList [.pySet [.pyInt 1]]) = false :=
  ⟨rfl, rfl⟩

/-- C5 amended: a visited expression node is replaced by a literal constant
exactly when it is not already a constant, its unparsed text does not
contain `print(`, the sandboxed evaluation succeeds, and the result is an
accepted atomic value or any list or dict (element types are not
inspected); the replacement carries the evaluated value and the original
node's source span, and in every other case the node is returned
unchanged. -/
theorem C5_fold_replacement_characterization (source : String) (sp : Nat × Nat)
    (evalOutcome : Option PyVal) (v cv : PyVal) :
    (generic_visit (.other source sp) evalOutcome = .constant v sp ↔
      containsPrintCall source = false ∧ evalOutcome = some v ∧
        genericVisitAccepts v = true) ∧
    (generic_visit (.other source sp) evalOutcome = .other source sp ∨
      ∃ w, evalOutcome = some w ∧
        generic_visit (.other source sp) evalOutcome = .constant w sp) ∧
    generic_visit (.constant cv sp) evalOutcome = .constant cv sp := by
  have hred : generic_visit (.other source sp) evalOutcome =
      (if containsPrintCall source then ExprNode.other source sp
       else
         match evalOutcome with
         | none => ExprNode.other source sp
         | some w =>
           if genericVisitAccepts w then ExprNode.constant w sp
           else ExprNode.other source sp) := rfl
  refine ⟨?_, ?_, rfl⟩
  · rw [hred]
    cases hp : containsPrintCall source with
    | true =>
        constructor
        · intro hEq; simp at hEq
        · rintro ⟨hc, -, -⟩; simp at hc
    | false =>
        cases evalOutcome with
        | none =>
            constructor
            · intro hEq; simp at hEq
            · rintro ⟨-, hsome, -⟩; simp at hsome
        | some w =>
            cases ha : genericVisitAccepts w with
            | true =>
                constructor
                · intro hEq
                  simp only [Bool.false_eq_true, if_false, ha, if_true,
                    ExprNode.constant.injEq] at hEq
                  rcases hEq with ⟨rfl, -⟩
                  exact ⟨rfl, rfl, ha⟩
                · rintro ⟨-, hsome, -⟩
                  injection hsome with hwv
                  subst hwv
                  simp [ha]
            | false =>
                constructor
                · intro hEq; simp [ha] at hEq
                · rintro ⟨-, hsome, hacc⟩
                  injection hsome with hwv
                  subst hwv
                  simp [ha] at hacc
  · rw [hred]
    cases hp : containsPrintCall source with
    | true => left; simp
    | false =>
        cases evalOutcome with
        | none => left; simp
        | some w =>
            cases ha : genericVisitAccepts w with
            | true =>
                right
                exact ⟨w, rfl, by simp [ha]⟩
            | false => left; simp [ha]

/-- C6: both `visit` wrappers turn a non-CompilerError exception raised by
the inner visit into exactly one `CompilerError` carrying the original
exception, the offending node and the pass's step name, re-raise an inner
`CompilerError` unchanged (never wrapping twice), and pass successes
through. -/
theorem C6_visit_wraps_errors_once {α : Type} (a : α) (msg o s step : String)
    (node n : Nat) :
    CompilingNodeTransformer.visit (Except.ok a) node step = .ok a ∧
    CompilingNodeTransformer.visit (Except.error (.other msg) : Except PyExc α)
      node step = .error (.compilerError msg node step) ∧
    CompilingNodeTransformer.visit
      (Except.error (.compilerError o n s) : Except PyExc α) node step =
      .error (.compilerError o n s) ∧
    CompilingNodeVisitor.visit (Except.ok a) node step = .ok a ∧
    CompilingNodeVisitor.visit (Except.error (.other msg) : Except PyExc α)
      node step = .error (.compilerError msg node step) ∧
    CompilingNodeVisitor.visit
      (Except.error (.compilerError o n s) : Except PyExc α) node step =
      .error (.compilerError o n s) :=
  ⟨rfl, rfl, rfl, rfl, rfl, rfl⟩

/-- C7: `len` is specialized from the resolved argument type: for every
single-argument application to an instance type the inferred signature
returns integer; the implementation is the byte-string length primitive
for byte strings (yielding the byte count) and the counting fold for lists
(yielding the element count), is defined for exactly those two variants,
and fails for every other instance type. -/
theorem C7_len_specialization :
    (∀ t : Typ, Len.type_from_args [.instanceT t] =
      .ok (.functionT [.instanceT t] IntegerInstanceType)) ∧
    (Len.impl_from_args [ByteStringInstanceType] = .ok lenByteStringImpl) ∧
    (∀ e : Typ, Len.impl_from_args [.instanceT (.listT e)] = .ok lenListImpl) ∧
    (∀ t : Typ, (Len.impl_from_args [.instanceT t]).isOk = true ↔
      t = .byteStringT ∨ ∃ e, t = .listT e) ∧
    (∀ bs : List Nat, runLenByteString bs = some (.vInt bs.length)) ∧
    (∀ vs : List Val, runLenList vs = some (.vInt vs.length)) := by
  refine ⟨fun t => rfl, ?_, ?_, ?_, fun bs => rfl, ?_⟩
  · simp [Len.impl_from_args, beqTyp, ByteStringInstanceType]
  · intro e
    simp [Len.impl_from_args, beqTyp, ByteStringInstanceType]
  · intro t
    cases t <;>
      simp [Len.impl_from_args, beqTyp, ByteStringInstanceType, Except.isOk,
        Except.toBool]
  · intro vs
    have h0 : runLenList vs = foldListRun (evalPlt 9)
        (.vClos ["a", "_"] (.addInteger (.varE "a") (.integer 1))
          [("_", .vUnit), ("x", .vList vs)]) (.vInt 0) vs := rfl
    rw [h0, lenListFoldRun]
    simp

/-- C8: a call argument list in which a positional argument appears after a
keyword argument is rejected by the argument-matching rules and never
compiles to an IR term (spec-modelled: the inference pass is not under
src/; the behaviour is fixed by spec 4.2 and witnessed by
`test_arg_after_keyword_failure`). -/
theorem C8_positional_after_keyword_rejected (params : List String)
    (args : List CallArg) (h : hasPositionalAfterKeyword args = true) :
    (compileCall params args).isOk = false := by
  have hstart : ((false && args.any isPositionalArg) ||
      hasPositionalAfterKeyword args) = true := by simpa using h
  exact matchArgsGo_fails args params [] 0 false hstart

/-- C8 witness: the test fixture call `simple_example(x=a, y=b, c)`. -/
theorem C8_positional_after_keyword_rejected_witness :
    hasPositionalAfterKeyword
      [CallArg.keyword "x" 0, CallArg.keyword "y" 1, CallArg.positional 2] = true ∧
    (compileCall ["x", "y", "z"]
      [CallArg.keyword "x" 0, CallArg.keyword "y" 1,
       CallArg.positional 2]).isOk = false :=
  ⟨rfl, C8_positional_after_keyword_rejected ["x", "y", "z"]
    [CallArg.keyword "x" 0, CallArg.keyword "y" 1, CallArg.positional 2] rfl⟩

/-- C9: `visit_Import` never returns a replacement node — whatever the
single-assignment status of the imported names and whatever the sandboxed
evaluation outcome — so the transformer drops every import statement from
the transformed AST. -/
theorem C9_import_statement_removed (allNamesConstant : Bool)
    (evalOutcome : Option (List (String × PyVal))) (ctx : FoldCtx) :
    ∃ newCtx, visit_Import allNamesConstant evalOutcome ctx = .ok (newCtx, none) := by
  cases allNamesConstant <;> cases evalOutcome <;> exact ⟨_, rfl⟩

/-- C10 counterexample: `data_from_json {"list": [{}]}` raises
`NotImplementedError` even though the key `list` is present (the error
comes from the recursive call on the keyless element), refuting the
claim's "exactly when none of these keys is present". -/
theorem C10_counterexample :
    lookupA "list" [("list", Json.jarr [Json.jobj []])] =
      some (Json.jarr [Json.jobj []]) ∧
    data_from_json (.jobj [("list", .jarr [.jobj []])]) = .error .notImplemented := by
  refine ⟨rfl, ?_⟩
  simp [data_from_json, data_from_json_list, lookupA, dataFromJsonStr]

/-- C10 amended: the recognized keys are tested in the fixed order
`bytes`, `int`, `list`, `map`, then `constructor` together with `fields`,
so a dictionary with several of these keys decodes by the first match in
that order; when none of them is present `data_from_json` raises
`NotImplementedError` — though `NotImplementedError` can also propagate
from the recursive decoding of list elements when `list` is present. -/
theorem C10_key_dispatch_order :
    (∀ (fields : List (String × Json)) (v : Json),
      lookupA "bytes" fields = some v →
      data_from_json (.jobj fields) = decodeBytes v) ∧
    (∀ (fields : List (String × Json)) (v : Json),
      lookupA "bytes" fields = none →
      lookupA "int" fields = some v →
      data_from_json (.jobj fields) = decodeInt v) ∧
    (∀ (fields : List (String × Json)) (items : List Json),
      lookupA "bytes" fields = none →
      lookupA "int" fields = none →
      lookupA "list" fields = some (.jarr items) →
      data_from_json (.jobj fields) =
        (match data_from_json_list items with
         | .ok ds => .ok (.plutusList ds)
         | .error e => .error e)) ∧
    (∀ (fields : List (String × Json)) (v : Json),
      lookupA "bytes" fields = none →
      lookupA "int" fields = none →
      lookupA "list" fields = none →
      lookupA "map" fields = some v →
      data_from_json (.jobj fields) = decodeMap v) ∧
    (∀ (fields : List (String × Json)) (c f : Json),
      lookupA "bytes" fields = none →
      lookupA "int" fields = none →
      lookupA "list" fields = none →
      lookupA "map" fields = none →
      lookupA "constructor" fields = some c →
      lookupA "fields" fields = some f →
      data_from_json (.jobj fields) = .ok (.plutusConstr c f)) ∧
    (∀ fields : List (String × Json),
      lookupA "bytes" fields = none →
      lookupA "int" fields = none →
      lookupA "list" fields = none →
      lookupA "map" fields = none →
      (lookupA "constructor" fields = none ∨ lookupA "fields" fields = none) →
      data_from_json (.jobj fields) = .error .notImplemented) := by
  refine ⟨?_, ?_, ?_, ?_, ?_, ?_⟩
  · intro fields v h1
    simp [data_from_json, h1]
  · intro fields v h1 h2
    simp [data_from_json, h1, h2]
  · intro fields items h1 h2 h3
    simp only [data_from_json, h1, h2]
    split <;> simp_all
  · intro fields v h1 h2 h3 h4
    simp only [data_from_json, h1, h2]
    split <;> simp_all
  · intro fields c f h1 h2 h3 h4 h5 h6
    simp only [data_from_json, h1, h2]
    split <;> simp_all
  · intro fields h1 h2 h3 h4 h5
    rcases h5 with h5 | h5
    · simp only [data_from_json, h1, h2]
      split <;> simp_all
    · cases hc : lookupA "constructor" fields with
      | none =>
          simp only [data_from_json, h1, h2]
          split <;> simp_all
      | some c =>
          simp only [data_from_json, h1, h2]
          split <;> simp_all

/-- C10 witness: concrete dictionaries exercising each branch of the
dispatch order. -/
theorem C10_key_dispatch_order_witness :
    data_from_json (.jobj [("int", .jint 3), ("bytes", .jstr "00ff")]) =
      decodeBytes (.jstr "00ff") ∧
    data_from_json (.jobj [("int", .jint 3), ("map", .jarr [])]) =
      decodeInt (.jint 3) ∧
    data_from_json (.jobj [("list", .jarr []), ("map", .jarr [])]) =
      (match data_from_json_list [] with
       | .ok ds => .ok (.plutusList ds)
       | .error e => .error e) ∧
    data_from_json
      (.jobj [("map", .jarr []), ("constructor", .jint 0), ("fields", .jarr [])]) =
      decodeMap (.jarr []) ∧
    data_from_json (.jobj [("constructor", .jint 0), ("fields", .jarr [])]) =
      .ok (.plutusConstr (.jint 0) (.jarr [])) ∧
    data_from_json (.jobj [("constructor", .jint 0)]) = .error .notImplemented :=
  ⟨C10_key_dispatch_order.1 _ _ rfl,
   C10_key_dispatch_order.2.1 _ _ rfl rfl,
   C10_key_dispatch_order.2.2.1 _ _ rfl rfl rfl,
   C10_key_dispatch_order.2.2.2.1 _ _ rfl rfl rfl rfl,
   C10_key_dispatch_order.2.2.2.2.1 _ _ _ rfl rfl rfl rfl rfl rfl,
   C10_key_dispatch_order.2.2.2.2.2 _ rfl rfl rfl rfl (Or.inr rfl)⟩

end Eopsin
